import Mathlib

/-!
Verification of the reconciliation and synchronization engine of wbs2tb-ts.

The definitions below are a shallow embedding of the TypeScript source in
src/main/cookieManager.ts (classes RateLimiter, TeambitionAPIClient and
SyncEngineV2) and src/main/config.ts (ConfigManager).  Remote I/O is modelled
by explicit environment parameters: the outcome of each remote call is an
input of the embedded function.  JS strings are modelled as Lean strings
(sequences of code points), JS floating-point similarity scores are modelled
in exact rational arithmetic, and millisecond timestamps are natural numbers.

The file is organised as: all definitions first, then all theorems.
-/

namespace Wbs2tb

/-! ### JS value helpers -/

/-- JS truthiness of a possibly-absent string value:
`undefined`, `null` and the empty string are falsy. -/
def jsTruthy : Option String → Bool
  | none => false
  | some s => !s.isEmpty

/-- JS `x || d` for a possibly-absent string (used for
`task.task_number || ''`, cookieManager.ts:1073). -/
def jsOrStr (x : Option String) (d : String) : String :=
  match x with
  | none => d
  | some s => if s.isEmpty then d else s

/-- JS `n || d` for a number (0 is falsy; used for `config.batchSize || 20`,
cookieManager.ts:1158). -/
def jsOrNat (n : Nat) (d : Nat) : Nat :=
  if n = 0 then d else n

/-- JS `String.prototype.toLowerCase`, modelled character-wise over the
string's character sequence. -/
def jsToLower (s : String) : String :=
  ⟨s.data.map Char.toLower⟩

/-- JS `String.prototype.trim`: strip leading and trailing whitespace. -/
def jsTrim (s : String) : String :=
  ⟨((s.data.dropWhile Char.isWhitespace).reverse.dropWhile Char.isWhitespace).reverse⟩

/-- Helper for `jsSplit`: split a character sequence at every separator,
keeping empty pieces (like JS `split`). -/
def splitCharsAux (p : Char → Bool) : List Char → List Char → List (List Char)
  | [], cur => [cur.reverse]
  | c :: rest, cur =>
    if p c then cur.reverse :: splitCharsAux p rest []
    else splitCharsAux p rest (c :: cur)

/-- JS `String.prototype.split` with a character-class separator (used for
`split(/[,\n]/)`, cookieManager.ts:1098). -/
def jsSplit (s : String) (p : Char → Bool) : List String :=
  (splitCharsAux p s.data []).map (fun l => ⟨l⟩)

/-! ### Levenshtein distance and similarity

`SyncEngineV2.calculateSimilarity` (cookieManager.ts:1034-1049) lower-cases
both strings, returns 1 on equality, and otherwise fills the DP matrix
with `matrix[i][0] = i`, `matrix[0][j] = j` and
`matrix[i][j] = min(matrix[i-1][j] + 1, matrix[i][j-1] + 1,
matrix[i-1][j-1] + cost)` where `cost` is 0 iff `str1[i-1] === str2[j-1]`,
and returns `1 - matrix[len1][len2] / max(len1, len2)`. -/

/-- One step of row `i1` of the DP matrix (the inner `for j` loop,
cookieManager.ts:1042-1045): given row `i1 - 1` as `prevRow` and the
character `cOpt = str1[i1-1]`, produce the entries of row `i1`. -/
def nextRow (s2 : List Char) (cOpt : Option Char) (prevRow : Nat → Nat) (i1 : Nat) :
    Nat → Nat
  | 0 => i1
  | j + 1 =>
      min (prevRow (j + 1) + 1)
        (min (nextRow s2 cOpt prevRow i1 j + 1)
          (prevRow j + (if cOpt = s2.get? j then 0 else 1)))

/-- `levRowFun s1 s2 i j` is `matrix[i][j]` of the DP matrix of
cookieManager.ts:1038-1046 (row 0 is `j`, row `i+1` is built from row `i`). -/
def levRowFun (s1 s2 : List Char) : Nat → Nat → Nat
  | 0 => fun j => j
  | i + 1 => nextRow s2 (s1.get? i) (levRowFun s1 s2 i) (i + 1)

/-- The edit distance read off the DP matrix: `matrix[len1][len2]`
(cookieManager.ts:1047). -/
def levDistance (s1 s2 : List Char) : Nat :=
  levRowFun s1 s2 s1.length s2.length

/-- `SyncEngineV2.calculateSimilarity` (cookieManager.ts:1034-1049), with the
floating-point score modelled as an exact rational. -/
def calculateSimilarity (str1 str2 : String) : ℚ :=
  let s1 := jsToLower str1
  let s2 := jsToLower str2
  if s1 = s2 then 1
  else
    1 - (levDistance s1.toList s2.toList : ℚ) /
      ((max s1.toList.length s2.toList.length : Nat) : ℚ)

/-! ### Task matching

`SyncEngineV2.processSingleTask` (cookieManager.ts:1073-1085) composes the
source task's name, scans `Object.entries(allTasks)` for an exact name match
(first match wins), and only if that fails runs the fuzzy-matching fold.
The remote task index `allTasks` is modelled as an association list of
`(taskId, displayName)` pairs in iteration order. -/

/-- The exact-match loop of cookieManager.ts:1076-1078: return the id of the
first entry whose display name equals `name`. -/
def findExact (name : String) : List (String × String) → Option String
  | [] => none
  | (id, n) :: rest => if n = name then some id else findExact name rest

/-- The fuzzy-matching loop of cookieManager.ts:1080-1084: fold over the
entries keeping `bestMatchScore` (initially 0) and the current candidate id,
replacing the candidate when `score > bestMatchScore && score > 0.5`. -/
def fuzzyGo (name : String) : List (String × String) → ℚ → Option String → Option String
  | [], _, acc => acc
  | (id, n) :: rest, best, acc =>
      let score := calculateSimilarity name n
      if best < score ∧ (1 / 2 : ℚ) < score then fuzzyGo name rest score (some id)
      else fuzzyGo name rest best acc

/-- The whole fuzzy pass (cookieManager.ts:1079-1085). -/
def fuzzyMatch (name : String) (allTasks : List (String × String)) : Option String :=
  fuzzyGo name allTasks 0 none

/-- Resolution of the target task id (cookieManager.ts:1074-1085): exact
match first, fuzzy match only when no exact match exists. -/
def resolveTaskId (name : String) (allTasks : List (String × String)) : Option String :=
  match findExact name allTasks with
  | some id => some id
  | none => fuzzyMatch name allTasks

/-! ### Source tasks and statistics -/

/-- One source task row as consumed by `SyncEngineV2.processSingleTask`.
Optional string fields model possibly-missing spreadsheet cells; `plan_time`
is modelled as the already-parsed planned-time value in milliseconds
(`Math.round(parseFloat(task.plan_time) * 3600000)`, cookieManager.ts:1103-1107;
`none` when the cell is absent, blank or unparseable — the floating-point
parse itself is not modelled). -/
structure SourceTask where
  task_number : Option String
  task_title : String
  start_date : Option String
  end_date : Option String
  reminder_rule_api : Option String
  reminder_rule : Option String
  executor : Option String
  involvers : Option String
  plan_time : Option Int
  rowIndex : Option Nat

/-- The composed display name of a source task:
`` `${task.task_number || ''} ${task.task_title}`.trim() ``
(cookieManager.ts:1073). -/
def composedName (t : SourceTask) : String :=
  jsTrim (jsOrStr t.task_number "" ++ " " ++ t.task_title)

/-- An entry of `stats.failedTasks` (cookieManager.ts:1016). -/
structure FailedTask where
  row : Option Nat
  task_name : String
  error : String
deriving DecidableEq

/-- `SyncStats` (cookieManager.ts:1011-1017). -/
structure SyncStats where
  total : Nat
  success : Nat
  failed : Nat
  skipped : Nat
  failedTasks : List FailedTask
deriving DecidableEq

/-- The fresh statistics installed at the start of a run
(cookieManager.ts:1141). -/
def resetStats (n : Nat) : SyncStats :=
  { total := n, success := 0, failed := 0, skipped := 0, failedTasks := [] }

/-! ### Remote client operations -/

/-- `TeambitionAPIClient.getUserIdByName` (cookieManager.ts:921-926): the
first member entry whose display name matches.  The member directory is an
association list of `(userId, name)` pairs in iteration order. -/
def getUserIdByName (name : String) : List (String × String) → Option String
  | [] => none
  | (userId, memberName) :: rest =>
      if memberName = name then some userId else getUserIdByName name rest

/-- Environment for one `updateTaskPlanTime` call.  `planGet` is the outcome
of the aggregation GET (cookieManager.ts:985-988): `.error` models a thrown
request (caught there), `.ok none` models an unsuccessful response or an
empty payload, and `.ok (some c)` models a success with
`payload[0].planTime = c`.  `planPost` is the outcome of POSTing a given
delta (cookieManager.ts:998): `.error` models a thrown request and `.ok b`
models `planResponse.success = b`. -/
structure PlanEnv where
  planGet : Except String (Option Int)
  planPost : Int → Except String Bool

/-- The `currentPlannedTime` read by `updateTaskPlanTime`
(cookieManager.ts:983-989): 0 unless the GET succeeds with a non-empty
payload. -/
def readCurrentPlanTime (g : Except String (Option Int)) : Int :=
  match g with
  | .error _ => 0
  | .ok none => 0
  | .ok (some c) => c

/-- `TeambitionAPIClient.updateTaskPlanTime` (cookieManager.ts:975-1002).
Returns the call's result together with the list of deltas submitted by the
POST (empty when no write was issued). -/
def updateTaskPlanTime (userId startDate endDate : Option String)
    (planTimeMs : Option Int) (env : PlanEnv) : Except String Bool × List Int :=
  if !jsTruthy userId || !jsTruthy startDate || !jsTruthy endDate then (.ok true, [])
  else
    match planTimeMs with
    | none => (.ok true, [])
    | some r =>
      let currentPlannedTime := readCurrentPlanTime env.planGet
      if currentPlannedTime < r then
        let additionalTime := r - currentPlannedTime
        (env.planPost additionalTime, [additionalTime])
      else (.ok true, [])

/-- `TeambitionAPIClient.updateTaskDates` (cookieManager.ts:936-947): no call
when both dates are absent, otherwise the outcome of the PUT supplied by the
environment (`.error` models a thrown request, `.ok b` models
`response.success = b`; when either date is present the payload is
non-empty, so the early `return true` at line 943 is unreachable). -/
def updateTaskDates (startDate endDate : Option String)
    (call : Except String Bool) : Except String Bool :=
  if !jsTruthy startDate && !jsTruthy endDate then .ok true else call

/-- Environment for one task's remote calls: the outcome of each per-field
call (`.error` models a thrown request, `.ok b` the response's success
flag), plus the planned-time sub-environment. -/
structure ApiEnv where
  updateDatesCall : Except String Bool
  setReminderCall : Except String Bool
  setExecutorCall : Except String Bool
  addInvolversCall : Except String Bool
  plan : PlanEnv

/-! ### Per-task processing -/

/-- The `updates` record assembled by `processSingleTask`
(cookieManager.ts:1089-1108). -/
structure Updates where
  start_date : Option String
  end_date : Option String
  reminder_rule : Option String
  executor_id : Option String
  involvers_ids : Option (List String)
  plan_time_ms : Option Int

/-- The `executorId` local of cookieManager.ts:1094-1095. -/
def executorIdOf (t : SourceTask) (allMembers : List (String × String)) : Option String :=
  if jsTruthy t.executor then getUserIdByName (jsOrStr t.executor "") allMembers else none

/-- `task.involvers.split(/[,\n]/).map(trim).filter(n => n)`
(cookieManager.ts:1098). -/
def splitInvolvers (s : String) : List String :=
  ((jsSplit s (fun c => c == ',' || c == '\n')).map jsTrim).filter (fun n => !n.isEmpty)

/-- The resolved involver ids (cookieManager.ts:1099): unresolved names are
filtered out (`id !== null`). -/
def involverIdsOf (t : SourceTask) (allMembers : List (String × String)) : List String :=
  (splitInvolvers (jsOrStr t.involvers "")).filterMap (fun n => getUserIdByName n allMembers)

/-- The `updates` record as assembled at cookieManager.ts:1089-1108.  A field
is present exactly when the corresponding guard held: truthy source cell for
the dates, truthy `reminder_rule_api` for the reminder (the value stored is
`task.reminder_rule`), a truthy resolved executor id, a non-empty resolved
involver id list, and a non-null parsed plan time. -/
def buildUpdates (t : SourceTask) (allMembers : List (String × String)) : Updates :=
  { start_date := if jsTruthy t.start_date then t.start_date else none
    end_date := if jsTruthy t.end_date then t.end_date else none
    reminder_rule := if jsTruthy t.reminder_rule_api then t.reminder_rule else none
    executor_id :=
      if jsTruthy (executorIdOf t allMembers) then executorIdOf t allMembers else none
    involvers_ids :=
      if jsTruthy t.involvers then
        (if (involverIdsOf t allMembers).length > 0 then some (involverIdsOf t allMembers)
         else none)
      else none
    plan_time_ms := t.plan_time }

/-- The per-field `results` record of cookieManager.ts:1110-1126; each
present entry is the status 200 (success) or 500 (failure). -/
structure FieldResults where
  startDate : Option Nat
  dueDate : Option Nat
  reminder : Option Nat
  executor : Option Nat
  involvers : Option Nat
  planTime : Option Nat
deriving DecidableEq

/-- The empty `results` record (cookieManager.ts:1110). -/
def noResults : FieldResults :=
  { startDate := none, dueDate := none, reminder := none, executor := none,
    involvers := none, planTime := none }

/-- `Object.values(results)`: the statuses of the attempted fields. -/
def attemptedStatuses (r : FieldResults) : List Nat :=
  [r.startDate, r.dueDate, r.reminder, r.executor, r.involvers, r.planTime].filterMap id

/-- `Object.values(results).every(status => status === 200)`
(cookieManager.ts:1128). -/
def allSuccessB (r : FieldResults) : Bool :=
  (attemptedStatuses r).all (fun st => st == 200)

/-- The `try` block of `processSingleTask` (cookieManager.ts:1111-1126):
attempt each populated field in order, stopping when a call throws.
`executorId` is the local of line 1094 (also passed to the planned-time
update at line 1124) and `pdt` is `this.config.getConfig().pdt`
(line 1121). -/
def attemptFields (u : Updates) (executorId : Option String) (pdt : Option String)
    (allMembers : List (String × String)) (env : ApiEnv) :
    Except String FieldResults := do
  let mut results := noResults
  if jsTruthy u.start_date || jsTruthy u.end_date then
    let success ← updateTaskDates u.start_date u.end_date env.updateDatesCall
    if jsTruthy u.start_date then
      results := { results with startDate := some (if success then 200 else 500) }
    if jsTruthy u.end_date then
      results := { results with dueDate := some (if success then 200 else 500) }
  if jsTruthy u.reminder_rule then
    let b ← env.setReminderCall
    results := { results with reminder := some (if b then 200 else 500) }
  if jsTruthy u.executor_id then
    let b ← env.setExecutorCall
    results := { results with executor := some (if b then 200 else 500) }
  if u.involvers_ids.isSome then
    let b ← env.addInvolversCall
    results := { results with involvers := some (if b then 200 else 500) }
  if u.plan_time_ms.isSome then
    let managerId :=
      if jsTruthy pdt then getUserIdByName (jsOrStr pdt "") allMembers else none
    if jsTruthy managerId && jsTruthy executorId &&
        jsTruthy u.start_date && jsTruthy u.end_date then
      let (res, _) :=
        updateTaskPlanTime executorId u.start_date u.end_date u.plan_time_ms env.plan
      let b ← res
      results := { results with planTime := some (if b then 200 else 500) }
    else
      results := { results with planTime := some 500 }
  return results

/-- `SyncEngineV2.processSingleTask` (cookieManager.ts:1071-1135) acting on
the run statistics.  `isRunning` is the engine flag read at line 1072; `env`
supplies the outcomes of the task's remote calls. -/
def processSingleTask (isRunning : Bool) (t : SourceTask)
    (allMembers allTasks : List (String × String)) (pdt : Option String)
    (env : ApiEnv) (stats : SyncStats) : SyncStats :=
  if !isRunning then stats
  else
    let taskName := composedName t
    match resolveTaskId taskName allTasks with
    | none => { stats with skipped := stats.skipped + 1 }
    | some _ =>
      let executorId := executorIdOf t allMembers
      let u := buildUpdates t allMembers
      match attemptFields u executorId pdt allMembers env with
      | .error e =>
        { stats with
            failed := stats.failed + 1
            failedTasks := stats.failedTasks ++
              [{ row := t.rowIndex, task_name := taskName, error := e }] }
      | .ok results =>
        if allSuccessB results then { stats with success := stats.success + 1 }
        else
          { stats with
              failed := stats.failed + 1
              failedTasks := stats.failedTasks ++
                [{ row := t.rowIndex, task_name := taskName, error := "部分更新失败" }] }

/-! ### Configuration -/

/-- `SyncConfig` (src/shared/types.ts), the shape of the object built by
`ConfigManager.getDefaultConfig` and `loadConfig` (config.ts:34-44, 49-68)
and returned (as a copy) by `getConfig` (config.ts:94-96). -/
structure Config where
  projectUrl : String
  cookies : String
  sheetName : String
  batchSize : Nat
  maxConcurrent : Nat
  useAsync : Bool
  pdt : Option String
  excelFilePath : Option String

/-- JS values stored in the config object. -/
inductive ConfigVal
  | str (s : String)
  | num (n : Nat)
  | boolean (b : Bool)

/-- Dynamic property access on the config object returned by
`ConfigManager.getConfig`: the object has exactly the `SyncConfig` fields
(the two optional ones only when present); any other key reads as
`undefined` (`none`). -/
def getConfigField (cfg : Config) : String → Option ConfigVal
  | "projectUrl" => some (.str cfg.projectUrl)
  | "cookies" => some (.str cfg.cookies)
  | "sheetName" => some (.str cfg.sheetName)
  | "batchSize" => some (.num cfg.batchSize)
  | "maxConcurrent" => some (.num cfg.maxConcurrent)
  | "useAsync" => some (.boolean cfg.useAsync)
  | "pdt" =>
    match cfg.pdt with
    | some s => some (.str s)
    | none => none
  | "excelFilePath" =>
    match cfg.excelFilePath with
    | some s => some (.str s)
    | none => none
  | _ => none

/-- The semaphore width computed by `SyncEngineV2.processBatch`
(cookieManager.ts:1052): `this.config.getConfig().maxConcurrentRequests || 5`,
a dynamic read of the key `maxConcurrentRequests` from the config object
(falling back to 5 when the value is missing or falsy). -/
def maxConcurrentWidth (cfg : Config) : Nat :=
  match getConfigField cfg "maxConcurrentRequests" with
  | some (.num n) => jsOrNat n 5
  | _ => 5

/-! ### The sync run -/

/-- The batch slicing of cookieManager.ts:1160-1164: `tasks.slice(i, i + k)`
for `i = 0, k, 2k, …`.  `fuel` bounds the recursion and is instantiated with
`l.length`, which is sufficient whenever `k ≥ 1`. -/
def chunkAux (k : Nat) : Nat → List α → List (List α)
  | _, [] => []
  | 0, _ :: _ => []
  | fuel + 1, x :: xs => (x :: xs).take k :: chunkAux k fuel ((x :: xs).drop k)

/-- All batches of size `k` of `l`, in order. -/
def chunks (k : Nat) (l : List α) : List (List α) :=
  chunkAux k l.length l

/-- The data produced by the bootstrap phase of `sync`
(cookieManager.ts:1144-1156): organisation id, tasklist id, the member
directory and the remote task index. -/
structure Bootstrap where
  organizationId : String
  tasklistId : String
  allMembers : List (String × String)
  allTasks : List (String × String)

/-- The engine fields `isRunning` and `stats` (cookieManager.ts:1021-1022). -/
structure EngineState where
  isRunning : Bool
  stats : SyncStats

/-- The value returned by `sync` (cookieManager.ts:1137). -/
structure SyncResult where
  success : Bool
  data : Option SyncStats
  error : Option String
deriving DecidableEq

/-- One batch (cookieManager.ts:1164 / `processBatch` at 1051-1060): all of a
batch's tasks complete before the next batch starts, and the single-threaded
scheduling makes every statistics update atomic, so the batch is modelled as
a fold over its tasks in input order (the semaphore only bounds how many
tasks are simultaneously suspended; it does not alter any statistics). -/
def processBatch (pdt : Option String) (allMembers allTasks : List (String × String))
    (env : SourceTask → ApiEnv) (batch : List SourceTask) (stats : SyncStats) : SyncStats :=
  batch.foldl (fun s t => processSingleTask true t allMembers allTasks pdt (env t) s) stats

/-- `SyncEngineV2.sync` (cookieManager.ts:1137-1178).  `tasks = none` models
a missing argument; `boot` models the whole bootstrap phase (config
validation, project-id extraction and the four bootstrap remote calls,
cookieManager.ts:1145-1156), whose failure is caught at line 1170; `env`
supplies the outcomes of each task's field-update calls.  `stop()` is not
invoked during the modelled run, so `isRunning` stays `true` from line 1140
until the `finally` block (line 1175) clears it. -/
def sync (st : EngineState) (tasks : Option (List SourceTask))
    (boot : Except String Bootstrap) (cfg : Config) (env : SourceTask → ApiEnv) :
    EngineState × SyncResult :=
  match tasks with
  | none => (st, { success := false, data := none, error := none })
  | some ts =>
    if ts.length = 0 then (st, { success := false, data := none, error := none })
    else
      let stats0 := resetStats ts.length
      match boot with
      | .error e =>
        ({ isRunning := false, stats := stats0 },
         { success := false, data := none, error := some e })
      | .ok b =>
        let batchSize := jsOrNat cfg.batchSize 20
        let finalStats := (chunks batchSize ts).foldl
          (fun s batch => processBatch cfg.pdt b.allMembers b.allTasks env batch s) stats0
        ({ isRunning := false, stats := finalStats },
         { success := true, data := some finalStats, error := none })

/-! ### Rate limiter -/

/-- `RateLimiter.acquire` (cookieManager.ts:722-735).  `now` is the clock at
entry; `jit` gives the extra delay (beyond the computed wait) incurred by
each sleep, indexed by the remaining fuel; the result is the recorded
timestamp (the entry time of the iteration that appended it) together with
the stored timestamp list.  `fuel` bounds the recursion depth (`none` when
exhausted).  The `[]` over-limit case (reachable only with
`maxRequests = 0`) models `this.requests[0]` being `undefined`, which makes
`waitTime` NaN so the wait is skipped and the timestamp is appended. -/
def acquire (maxRequests timeWindow : Nat) :
    Nat → Nat → List Nat → (Nat → Nat) → Option (Nat × List Nat)
  | 0, _, _, _ => none
  | fuel + 1, now, requests, jit =>
    let requests2 := requests.filter (fun time => now - time < timeWindow)
    if maxRequests ≤ requests2.length then
      match requests2 with
      | [] => some (now, requests2 ++ [now])
      | oldest :: _ =>
        let waitTime := timeWindow - (now - oldest)
        if 0 < waitTime then
          acquire maxRequests timeWindow fuel (now + waitTime + jit fuel) requests2 jit
        else some (now, requests2 ++ [now])
    else some (now, requests2 ++ [now])

/-- Issue a sequence of `acquire` calls one after another against the same
limiter: each call enters `gap` milliseconds after the previous one
completed.  Returns the recorded timestamps in order together with the final
stored list. -/
def runAcquires (maxRequests timeWindow : Nat) (jit : Nat → Nat) :
    List Nat → Nat → List Nat → Option (List Nat × List Nat)
  | [], _, requests => some ([], requests)
  | gap :: gaps, prevDone, requests =>
    let start := prevDone + gap
    match acquire maxRequests timeWindow (requests.length + 1) start requests jit with
    | none => none
    | some tr =>
      match runAcquires maxRequests timeWindow jit gaps tr.1 tr.2 with
      | none => none
      | some tsr => some (tr.1 :: tsr.1, tsr.2)

/-! ### Remote client request loop -/

/-- Outcome of one attempt of `TeambitionAPIClient.request`
(cookieManager.ts:770-813).  `syncThrow` models an exception thrown while
starting the attempt (e.g. by `new URL`), which the surrounding
`try`/`catch` catches; `netReject` models the returned promise rejecting
(the `req.on('error', reject)` path, line 803) — the promise is returned
from the `try` block without `await`, so its rejection is not caught by the
`catch`; `response` models a completed HTTP response with the given status
code and whether its body parses as JSON. -/
inductive AttemptOutcome
  | syncThrow (msg : String)
  | netReject (msg : String)
  | response (status : Nat) (parseOk : Bool)

/-- The final outcome of `request` as seen by its caller: a resolved
structured response, an uncaught promise rejection, or the terminal error
thrown after the retry loop. -/
inductive RequestResult
  | resolved (success : Bool) (code : Nat)
  | rejected (msg : String)
  | raised (msg : String)
deriving DecidableEq

/-- The response classification of cookieManager.ts:789-800: a 2xx status
with a JSON body resolves successfully; a 2xx status with an unparseable
body and any non-2xx status resolve as structured failures. -/
def classifyResponse (status : Nat) (parseOk : Bool) : RequestResult :=
  if 200 ≤ status ∧ status < 300 then
    if parseOk then .resolved true status else .resolved false status
  else .resolved false status

/-- The retry loop of `request` (cookieManager.ts:766-815): `fuel` is
`maxRetries - retries`, and `sleeps` records the backoff pauses
(`Math.pow(2, retries) * 1000`, line 811).  An exhausted loop raises the
terminal error of line 815. -/
def requestGo (attempts : Nat → AttemptOutcome) (maxRetries : Nat) :
    Nat → String → List Nat → RequestResult × List Nat
  | 0, lastError, sleeps =>
    (.raised ("Request failed after " ++ toString maxRetries ++ " retries: " ++ lastError),
     sleeps)
  | fuel + 1, _, sleeps =>
    let retries := maxRetries - (fuel + 1)
    match attempts retries with
    | .netReject msg => (.rejected msg, sleeps)
    | .response status parseOk => (classifyResponse status parseOk, sleeps)
    | .syncThrow msg =>
      if retries + 1 < maxRetries then
        requestGo attempts maxRetries fuel msg (sleeps ++ [2 ^ (retries + 1) * 1000])
      else requestGo attempts maxRetries fuel msg sleeps

/-- `TeambitionAPIClient.request` (cookieManager.ts:765-816) with
`maxRetries = 3`: `attempts k` is the outcome of attempt number `k`
(0-based).  Returns the result together with the backoff pauses taken. -/
def request (attempts : Nat → AttemptOutcome) : RequestResult × List Nat :=
  requestGo attempts 3 3 "" []

/-! ### Sample values used to evaluate the model at concrete inputs -/

/-- The sum of the three per-task outcome counters. -/
def statSum (s : SyncStats) : Nat :=
  s.success + s.failed + s.skipped

/-- A minimal source task (all optional cells absent). -/
def sampleTask : SourceTask :=
  { task_number := none, task_title := "t", start_date := none, end_date := none,
    reminder_rule_api := none, reminder_rule := none, executor := none,
    involvers := none, plan_time := none, rowIndex := none }

/-- The defaults of `ConfigManager.getDefaultConfig` (config.ts:34-44) with
`maxConcurrent` set to 3. -/
def sampleConfig : Config :=
  { projectUrl := "", cookies := "", sheetName := "", batchSize := 20,
    maxConcurrent := 3, useAsync := true, pdt := none, excelFilePath := none }

/-- A per-task call environment in which every remote call succeeds. -/
def sampleEnv : ApiEnv :=
  { updateDatesCall := .ok true, setReminderCall := .ok true,
    setExecutorCall := .ok true, addInvolversCall := .ok true,
    plan := { planGet := .ok none, planPost := fun _ => .ok true } }

/-- A member directory with one member. -/
def sampleMembers : List (String × String) := [("u1", "Alice")]

/-- A remote task index with one task. -/
def sampleIndex : List (String × String) := [("t1", "1 Demo")]

/-- A source task with a schedule cell and an executor cell. -/
def sampleTask7 : SourceTask :=
  { task_number := some "1", task_title := "Demo", start_date := some "2024-01-01",
    end_date := none, reminder_rule_api := none, reminder_rule := none,
    executor := some "Alice", involvers := none, plan_time := none, rowIndex := some 4 }

/-- A per-task call environment in which only the executor call fails. -/
def sampleEnvFail : ApiEnv :=
  { updateDatesCall := .ok true, setReminderCall := .ok true,
    setExecutorCall := .ok false, addInvolversCall := .ok true,
    plan := { planGet := .ok none, planPost := fun _ => .ok true } }

end Wbs2tb

namespace Wbs2tb

/-! ## Theorems -/

theorem levRowFun_zero (s1 s2 : List Char) (j : Nat) : levRowFun s1 s2 0 j = j := rfl

theorem levRowFun_succ_zero (s1 s2 : List Char) (i : Nat) :
    levRowFun s1 s2 (i + 1) 0 = i + 1 := rfl

theorem levRowFun_succ_succ (s1 s2 : List Char) (i j : Nat) :
    levRowFun s1 s2 (i + 1) (j + 1) =
      min (levRowFun s1 s2 i (j + 1) + 1)
        (min (levRowFun s1 s2 (i + 1) j + 1)
          (levRowFun s1 s2 i j + (if s1.get? i = s2.get? j then 0 else 1))) := rfl

theorem levRowFun_symm (s1 s2 : List Char) :
    ∀ i j, levRowFun s1 s2 i j = levRowFun s2 s1 j i := by
  intro i
  induction i with
  | zero =>
    intro j
    cases j with
    | zero => rfl
    | succ j => rfl
  | succ i ih =>
    intro j
    induction j with
    | zero => rfl
    | succ j ihj =>
      rw [levRowFun_succ_succ, levRowFun_succ_succ s2 s1 j i]
      rw [ih (j + 1), ih j, ihj]
      have hc : (if s1.get? i = s2.get? j then 0 else 1) =
          (if s2.get? j = s1.get? i then 0 else 1) := by
        by_cases h : s1.get? i = s2.get? j
        · rw [if_pos h, if_pos h.symm]
        · rw [if_neg h, if_neg (fun h2 => h h2.symm)]
      rw [hc]
      exact min_left_comm _ _ _

theorem levRowFun_self_diag (s : List Char) : ∀ i, levRowFun s s i i = 0 := by
  intro i
  induction i with
  | zero => rfl
  | succ i ih =>
    rw [levRowFun_succ_succ, ih, if_pos rfl]
    omega

/-- Claim C5: the Levenshtein edit distance computed inside
`calculateSimilarity` is symmetric and zero on equal arguments, hence
`calculateSimilarity` itself is symmetric and equal to 1 on equal
arguments. -/
theorem c5_levenshtein_symm_refl (a b : String) :
    levDistance a.toList b.toList = levDistance b.toList a.toList ∧
    levDistance a.toList a.toList = 0 ∧
    calculateSimilarity a b = calculateSimilarity b a ∧
    calculateSimilarity a a = 1 := by
  refine ⟨?_, ?_, ?_, ?_⟩
  · exact levRowFun_symm _ _ _ _
  · exact levRowFun_self_diag _ _
  · show (if jsToLower a = jsToLower b then (1 : ℚ) else _) =
      (if jsToLower b = jsToLower a then (1 : ℚ) else _)
    by_cases h : jsToLower a = jsToLower b
    · rw [if_pos h, if_pos h.symm]
    · rw [if_neg h, if_neg (fun h2 => h h2.symm)]
      have hd : levDistance (jsToLower a).toList (jsToLower b).toList =
          levDistance (jsToLower b).toList (jsToLower a).toList := levRowFun_symm _ _ _ _
      rw [hd, Nat.max_comm]
  · show (if jsToLower a = jsToLower a then (1 : ℚ) else _) = 1
    rw [if_pos rfl]

/-! ### Matching lemmas -/

theorem findExact_first (name : String) :
    ∀ (pre : List (String × String)) (id : String) (post : List (String × String)),
      (∀ p ∈ pre, p.2 ≠ name) →
      findExact name (pre ++ (id, name) :: post) = some id := by
  intro pre
  induction pre with
  | nil =>
    intro id post _
    simp [findExact]
  | cons p pre ih =>
    intro id post h
    obtain ⟨pid, pname⟩ := p
    have hne : pname ≠ name := h (pid, pname) (List.mem_cons_self _ _)
    simp only [List.cons_append, findExact, if_neg hne]
    exact ih id post (fun q hq => h q (List.mem_cons_of_mem _ hq))

theorem findExact_none (name : String) :
    ∀ l : List (String × String), (∀ p ∈ l, p.2 ≠ name) → findExact name l = none := by
  intro l
  induction l with
  | nil => intro _; rfl
  | cons p rest ih =>
    intro h
    obtain ⟨pid, pname⟩ := p
    have hne : pname ≠ name := h (pid, pname) (List.mem_cons_self _ _)
    simp only [findExact, if_neg hne]
    exact ih (fun q hq => h q (List.mem_cons_of_mem _ hq))

theorem fuzzyGo_acc_some (name : String) :
    ∀ (l : List (String × String)) (best : ℚ) (id : String),
      (fuzzyGo name l best (some id)).isSome := by
  intro l
  induction l with
  | nil => intro best id; rfl
  | cons p rest ih =>
    intro best id
    obtain ⟨pid, pname⟩ := p
    simp only [fuzzyGo]
    by_cases h : best < calculateSimilarity name pname ∧
        (1 / 2 : ℚ) < calculateSimilarity name pname
    · rw [if_pos h]; exact ih _ _
    · rw [if_neg h]; exact ih _ _

theorem fuzzyGo_none_iff (name : String) :
    ∀ (l : List (String × String)) (best : ℚ),
      fuzzyGo name l best none = none ↔
        ∀ p ∈ l, ¬(best < calculateSimilarity name p.2 ∧
          (1 / 2 : ℚ) < calculateSimilarity name p.2) := by
  intro l
  induction l with
  | nil => intro best; simp [fuzzyGo]
  | cons p rest ih =>
    intro best
    obtain ⟨pid, pname⟩ := p
    simp only [fuzzyGo]
    by_cases h : best < calculateSimilarity name pname ∧
        (1 / 2 : ℚ) < calculateSimilarity name pname
    · rw [if_pos h]
      constructor
      · intro hcontr
        have := fuzzyGo_acc_some name rest (calculateSimilarity name pname) pid
        rw [hcontr] at this
        exact absurd this (by simp)
      · intro hall
        exact absurd h (hall (pid, pname) (List.mem_cons_self _ _))
    · rw [if_neg h]
      rw [ih best]
      constructor
      · intro hall q hq
        rcases List.mem_cons.mp hq with hq1 | hq2
        · rw [hq1]; exact h
        · exact hall q hq2
      · intro hall q hq
        exact hall q (List.mem_cons_of_mem _ hq)

/-- Characterisation of the fuzzy fold: a returned id is either the incoming
candidate (when no entry beats the incoming score while clearing the
threshold) or an entry whose score clears both the threshold and every other
entry's score. -/
theorem fuzzyGo_char (name : String) :
    ∀ (l : List (String × String)) (best : ℚ) (acc : Option String) (id : String),
      fuzzyGo name l best acc = some id →
        (acc = some id ∧ ∀ q ∈ l, calculateSimilarity name q.2 ≤ best ∨
          calculateSimilarity name q.2 ≤ 1 / 2) ∨
        (∃ p, p ∈ l ∧ p.1 = id ∧ (1 / 2 : ℚ) < calculateSimilarity name p.2 ∧
          best < calculateSimilarity name p.2 ∧
          ∀ q ∈ l, calculateSimilarity name q.2 ≤ calculateSimilarity name p.2 ∨
            calculateSimilarity name q.2 ≤ 1 / 2) := by
  intro l
  induction l with
  | nil =>
    intro best acc id h
    left
    exact ⟨h, by simp⟩
  | cons e rest ih =>
    intro best acc id h
    obtain ⟨eid, ename⟩ := e
    simp only [fuzzyGo] at h
    by_cases hc : best < calculateSimilarity name ename ∧
        (1 / 2 : ℚ) < calculateSimilarity name ename
    · rw [if_pos hc] at h
      rcases ih _ _ _ h with ⟨hacc, hall⟩ | ⟨p, hmem, hpid, hthr, hbeat, hmax⟩
      · right
        refine ⟨(eid, ename), List.mem_cons_self _ _, by injection hacc, hc.2, hc.1, ?_⟩
        intro q hq
        rcases List.mem_cons.mp hq with hq1 | hq2
        · left; rw [hq1]
        · exact hall q hq2
      · right
        refine ⟨p, List.mem_cons_of_mem _ hmem, hpid, hthr, lt_trans hc.1 hbeat, ?_⟩
        intro q hq
        rcases List.mem_cons.mp hq with hq1 | hq2
        · left; rw [hq1]; exact le_of_lt hbeat
        · exact hmax q hq2
    · rw [if_neg hc] at h
      have hnot : calculateSimilarity name ename ≤ best ∨
          calculateSimilarity name ename ≤ 1 / 2 := by
        rcases not_and_or.mp hc with h1 | h1
        · left; exact le_of_not_lt h1
        · right; exact le_of_not_lt h1
      rcases ih _ _ _ h with ⟨hacc, hall⟩ | ⟨p, hmem, hpid, hthr, hbeat, hmax⟩
      · left
        refine ⟨hacc, ?_⟩
        intro q hq
        rcases List.mem_cons.mp hq with hq1 | hq2
        · rw [hq1]; exact hnot
        · exact hall q hq2
      · right
        refine ⟨p, List.mem_cons_of_mem _ hmem, hpid, hthr, hbeat, ?_⟩
        intro q hq
        rcases List.mem_cons.mp hq with hq1 | hq2
        · rw [hq1]
          rcases hnot with h1 | h1
          · left; exact le_trans h1 (le_of_lt hbeat)
          · right; exact h1
        · exact hmax q hq2

/-- Claim C4: `processSingleTask` resolves the target id by first returning
the first index entry whose display name exactly equals the composed name,
runs the fuzzy pass only when no exact match exists (then returning an entry
of maximal similarity, accepted only when its score strictly exceeds 1/2),
and counts an unmatched task as skipped. -/
theorem c4_matching (name : String) (idx : List (String × String)) :
    (∀ (pre : List (String × String)) (id : String) (post : List (String × String)),
      idx = pre ++ (id, name) :: post → (∀ p ∈ pre, p.2 ≠ name) →
      resolveTaskId name idx = some id) ∧
    ((∀ p ∈ idx, p.2 ≠ name) → ∀ id, resolveTaskId name idx = some id →
      ∃ p, p ∈ idx ∧ p.1 = id ∧ (1 / 2 : ℚ) < calculateSimilarity name p.2 ∧
        ∀ q ∈ idx, calculateSimilarity name q.2 ≤ calculateSimilarity name p.2) ∧
    ((∀ p ∈ idx, p.2 ≠ name) →
      (resolveTaskId name idx = none ↔
        ∀ p ∈ idx, calculateSimilarity name p.2 ≤ 1 / 2)) ∧
    (∀ (t : SourceTask) (allMembers : List (String × String)) (pdt : Option String)
        (env : ApiEnv) (stats : SyncStats),
      resolveTaskId (composedName t) idx = none →
      processSingleTask true t allMembers idx pdt env stats =
        { stats with skipped := stats.skipped + 1 }) := by
  refine ⟨?_, ?_, ?_, ?_⟩
  · intro pre id post hidx hpre
    subst hidx
    unfold resolveTaskId
    rw [findExact_first name pre id post hpre]
  · intro hno id hres
    unfold resolveTaskId at hres
    rw [findExact_none name idx hno] at hres
    unfold fuzzyMatch at hres
    rcases fuzzyGo_char name idx 0 none id hres with ⟨hacc, _⟩ | ⟨p, hmem, hpid, hthr, _, hmax⟩
    · exact absurd hacc (by simp)
    · refine ⟨p, hmem, hpid, hthr, ?_⟩
      intro q hq
      rcases hmax q hq with h1 | h1
      · exact h1
      · exact le_trans h1 (le_of_lt hthr)
  · intro hno
    unfold resolveTaskId
    rw [findExact_none name idx hno]
    unfold fuzzyMatch
    rw [fuzzyGo_none_iff name idx 0]
    constructor
    · intro hall p hp
      by_contra hgt
      push_neg at hgt
      exact hall p hp ⟨lt_trans (by norm_num) hgt, hgt⟩
    · intro hall p hp hcontr
      exact absurd hcontr.2 (not_lt.mpr (hall p hp))
  · intro t allMembers pdt env stats hres
    simp only [processSingleTask, Bool.not_true, Bool.false_eq_true, if_false, hres]

/-- Witness for C4 at a concrete index: the first exact match wins. -/
theorem c4_matching_witness :
    resolveTaskId "1 a" [("x", "zz"), ("y", "1 a")] = some "y" :=
  (c4_matching "1 a" [("x", "zz"), ("y", "1 a")]).1 [("x", "zz")] "y" [] rfl (by decide)

/-- Claim C6: with all prerequisites present, `updateTaskPlanTime` submits
exactly the positive delta (requested minus current) as a new planned-time
entry, and performs no write (reporting success) when the delta is not
positive. -/
theorem c6_plan_time_delta (userId startDate endDate : Option String)
    (r : Int) (env : PlanEnv)
    (hu : jsTruthy userId = true) (hs : jsTruthy startDate = true)
    (he : jsTruthy endDate = true) :
    (0 < r - readCurrentPlanTime env.planGet →
      updateTaskPlanTime userId startDate endDate (some r) env =
        (env.planPost (r - readCurrentPlanTime env.planGet),
         [r - readCurrentPlanTime env.planGet])) ∧
    (r - readCurrentPlanTime env.planGet ≤ 0 →
      updateTaskPlanTime userId startDate endDate (some r) env = (.ok true, [])) := by
  unfold updateTaskPlanTime
  rw [hu, hs, he]
  simp only [Bool.not_true, Bool.false_or, Bool.or_self, if_false]
  constructor
  · intro h
    rw [if_pos (sub_pos.mp h)]
    simp
  · intro h
    rw [if_neg (not_lt.mpr (sub_nonpos.mp h))]
    simp

/-- Witness for C6 at the spec's two examples (2h recorded, 1.5h requested:
no write; 1h recorded, 3h requested: exactly a 2h delta). -/
theorem c6_plan_time_delta_witness :
    updateTaskPlanTime (some "u") (some "2024-01-01") (some "2024-01-02") (some 5400000)
      { planGet := .ok (some 7200000), planPost := fun _ => .ok true } = (.ok true, []) ∧
    updateTaskPlanTime (some "u") (some "2024-01-01") (some "2024-01-02") (some 10800000)
      { planGet := .ok (some 3600000), planPost := fun _ => .ok true } =
      (.ok true, [7200000]) := by
  constructor
  · exact (c6_plan_time_delta (some "u") (some "2024-01-01") (some "2024-01-02") 5400000
      { planGet := .ok (some 7200000), planPost := fun _ => .ok true }
      rfl rfl rfl).2 (by decide)
  · have h := (c6_plan_time_delta (some "u") (some "2024-01-01") (some "2024-01-02") 10800000
      { planGet := .ok (some 3600000), planPost := fun _ => .ok true }
      rfl rfl rfl).1 (by decide)
    rw [h]
    rfl

/-- Claim C9: `sync` with a missing or empty task list returns
`success = false` with no error message and no statistics, leaves the engine
state (including the stored stats) unchanged, and does so independently of
the bootstrap and call environments (no remote call is consulted). -/
theorem c9_empty_sync (st : EngineState) (boot : Except String Bootstrap)
    (cfg : Config) (env : SourceTask → ApiEnv) :
    sync st none boot cfg env =
      (st, { success := false, data := none, error := none }) ∧
    sync st (some []) boot cfg env =
      (st, { success := false, data := none, error := none }) :=
  ⟨rfl, rfl⟩

/-- Claim C2 evaluation at the failing input: a network error (rejection of
the returned promise) on the first attempt is propagated immediately with no
retry and no backoff pause; a completed non-2xx response resolves as a
structured failure with no retry; only synchronous attempt-setup exceptions
are retried, with backoff pauses 2000 ms then 4000 ms and a terminal raise
after the third failure. -/
theorem c2_request_retry_behaviour :
    request (fun _ => .netReject "ECONNRESET") = (.rejected "ECONNRESET", []) ∧
    request (fun _ => .response 404 true) = (.resolved false 404, []) ∧
    request (fun _ => .syncThrow "Invalid URL") =
      (.raised "Request failed after 3 retries: Invalid URL", [2000, 4000]) := by
  refine ⟨rfl, rfl, ?_⟩
  rfl

/-- Claim C3 evaluation at the failing input: the semaphore width used by
`processBatch` ignores the configured `maxConcurrent` tunable — it reads the
key `maxConcurrentRequests`, which the config object does not define, so the
width is 5 for every configuration; in particular a config with
`maxConcurrent = 3` still yields width 5. -/
theorem c3_width_ignores_config :
    maxConcurrentWidth sampleConfig = 5 ∧ sampleConfig.maxConcurrent = 3 ∧
    ∀ cfg : Config, maxConcurrentWidth cfg = 5 := by
  refine ⟨rfl, rfl, ?_⟩
  intro cfg
  rfl

/-! ### Statistics bookkeeping lemmas -/

theorem processSingleTask_counters (t : SourceTask) (m a : List (String × String))
    (pdt : Option String) (env : ApiEnv) (s : SyncStats) :
    (processSingleTask true t m a pdt env s).total = s.total ∧
    statSum (processSingleTask true t m a pdt env s) = statSum s + 1 := by
  unfold processSingleTask
  simp only [Bool.not_true, Bool.false_eq_true, if_false]
  split
  · exact ⟨rfl, by simp [statSum]; omega⟩
  · split
    · exact ⟨rfl, by simp [statSum]; omega⟩
    · split
      · exact ⟨rfl, by simp [statSum]; omega⟩
      · exact ⟨rfl, by simp [statSum]; omega⟩

theorem processBatch_nil (pdt : Option String) (m a : List (String × String))
    (env : SourceTask → ApiEnv) (s : SyncStats) :
    processBatch pdt m a env [] s = s := rfl

theorem processBatch_cons (pdt : Option String) (m a : List (String × String))
    (env : SourceTask → ApiEnv) (t : SourceTask) (rest : List SourceTask) (s : SyncStats) :
    processBatch pdt m a env (t :: rest) s =
      processBatch pdt m a env rest (processSingleTask true t m a pdt (env t) s) := rfl

theorem processBatch_counters (pdt : Option String) (m a : List (String × String))
    (env : SourceTask → ApiEnv) :
    ∀ (batch : List SourceTask) (s : SyncStats),
      (processBatch pdt m a env batch s).total = s.total ∧
      statSum (processBatch pdt m a env batch s) = statSum s + batch.length := by
  intro batch
  induction batch with
  | nil => intro s; exact ⟨rfl, rfl⟩
  | cons t rest ih =>
    intro s
    rw [processBatch_cons]
    have h1 := processSingleTask_counters t m a pdt (env t) s
    have h2 := ih (processSingleTask true t m a pdt (env t) s)
    refine ⟨by rw [h2.1, h1.1], ?_⟩
    rw [h2.2, h1.2]
    simp
    omega

theorem foldBatches_counters (pdt : Option String) (m a : List (String × String))
    (env : SourceTask → ApiEnv) :
    ∀ (bs : List (List SourceTask)) (s : SyncStats),
      ((bs.foldl (fun s2 batch => processBatch pdt m a env batch s2) s).total = s.total) ∧
      statSum (bs.foldl (fun s2 batch => processBatch pdt m a env batch s2) s) =
        statSum s + (bs.map List.length).sum := by
  intro bs
  induction bs with
  | nil => intro s; exact ⟨rfl, rfl⟩
  | cons batch rest ih =>
    intro s
    simp only [List.foldl_cons, List.map_cons, List.sum_cons]
    have h1 := processBatch_counters pdt m a env batch s
    have h2 := ih (processBatch pdt m a env batch s)
    refine ⟨by rw [h2.1, h1.1], ?_⟩
    rw [h2.2, h1.2]
    omega

theorem jsOrNat_pos (n : Nat) : 1 ≤ jsOrNat n 20 := by
  unfold jsOrNat
  split <;> omega

theorem chunkAux_length_sum (k : Nat) (hk : 1 ≤ k) :
    ∀ (fuel : Nat) (l : List SourceTask), l.length ≤ fuel →
      ((chunkAux k fuel l).map List.length).sum = l.length := by
  intro fuel
  induction fuel with
  | zero =>
    intro l hl
    cases l with
    | nil => rfl
    | cons x xs => simp at hl
  | succ fuel ih =>
    intro l hl
    cases l with
    | nil => rfl
    | cons x xs =>
      have hl2 : xs.length + 1 ≤ fuel + 1 := by simpa using hl
      simp only [chunkAux, List.map_cons, List.sum_cons]
      rw [ih ((x :: xs).drop k)
        (by simp only [List.length_drop, List.length_cons]; omega)]
      simp only [List.length_take, List.length_drop, List.length_cons]
      omega

/-! ### Per-task outcome and run-level claims -/

/-- Claim C7: a matched task is counted as success exactly when every
attempted field call succeeded (an absent entry — an unattempted field —
does not affect the outcome); if any attempted field failed, or a call
threw, the task is counted as failed and recorded in `failedTasks` with its
source row number, its composed name and a reason, and the other counters
are untouched. -/
theorem c7_task_outcome (t : SourceTask) (m a : List (String × String))
    (pdt : Option String) (env : ApiEnv) (stats : SyncStats) (tid : String)
    (hm : resolveTaskId (composedName t) a = some tid) :
    (∀ results,
      attemptFields (buildUpdates t m) (executorIdOf t m) pdt m env = .ok results →
      (allSuccessB results = true →
        processSingleTask true t m a pdt env stats =
          { stats with success := stats.success + 1 }) ∧
      (allSuccessB results = false →
        processSingleTask true t m a pdt env stats =
          { stats with
              failed := stats.failed + 1
              failedTasks := stats.failedTasks ++
                [{ row := t.rowIndex, task_name := composedName t,
                   error := "部分更新失败" }] }) ∧
      (allSuccessB results = true ↔
        ∀ code ∈ attemptedStatuses results, code = 200)) ∧
    (∀ e,
      attemptFields (buildUpdates t m) (executorIdOf t m) pdt m env = .error e →
      processSingleTask true t m a pdt env stats =
        { stats with
            failed := stats.failed + 1
            failedTasks := stats.failedTasks ++
              [{ row := t.rowIndex, task_name := composedName t, error := e }] }) := by
  constructor
  · intro results ha
    refine ⟨?_, ?_, ?_⟩
    · intro hok
      simp only [processSingleTask, Bool.not_true, Bool.false_eq_true, if_false, hm, ha, hok,
        if_true]
    · intro hbad
      simp only [processSingleTask, Bool.not_true, Bool.false_eq_true, if_false, hm, ha, hbad,
        Bool.false_eq_true, if_false]
    · simp only [allSuccessB, List.all_eq_true, beq_iff_eq]
  · intro e ha
    simp only [processSingleTask, Bool.not_true, Bool.false_eq_true, if_false, hm, ha]

/-- Witness for C7: the partial-failure scenario — a task whose schedule
update succeeds and whose executor update fails is recorded as failed, with
the task present in `failedTasks` and `success` not incremented. -/
theorem c7_task_outcome_witness :
    processSingleTask true sampleTask7 sampleMembers sampleIndex none sampleEnvFail
        (resetStats 1) =
      { total := 1, success := 0, failed := 1, skipped := 0,
        failedTasks := [{ row := some 4, task_name := "1 Demo", error := "部分更新失败" }] } := by
  exact ((c7_task_outcome sampleTask7 sampleMembers sampleIndex none sampleEnvFail
      (resetStats 1) "t1" rfl).1
      { startDate := some 200, dueDate := none, reminder := none, executor := some 500,
        involvers := none, planTime := none } rfl).2.1 rfl

/-- Claim C1 (amended): `sync` is not guarded by `isRunning` — a call with a
non-empty task list made while `isRunning` is true is not rejected or
queued; it behaves exactly like a call made while idle, starting a new run
and resetting the statistics (the new total is the task count). -/
theorem c1_sync_not_guarded (st : EngineState) (ts : List SourceTask)
    (boot : Except String Bootstrap) (cfg : Config) (env : SourceTask → ApiEnv)
    (hrun : st.isRunning = true) (hne : ts ≠ []) :
    sync st (some ts) boot cfg env =
      sync { isRunning := false, stats := st.stats } (some ts) boot cfg env ∧
    (sync st (some ts) boot cfg env).1.stats.total = ts.length := by
  have hlen : ¬ts.length = 0 := fun h => hne (List.length_eq_zero.mp h)
  constructor
  · simp only [sync]
    rw [if_neg hlen, if_neg hlen]
  · simp only [sync]
    rw [if_neg hlen]
    cases boot with
    | error e => rfl
    | ok b =>
      exact (foldBatches_counters cfg.pdt b.allMembers b.allTasks env
        (chunks (jsOrNat cfg.batchSize 20) ts) (resetStats ts.length)).1

/-- Witness for the amended C1: a concrete call made while running resets
the stored total from 5 to 1. -/
theorem c1_sync_not_guarded_witness :
    (sync { isRunning := true, stats := resetStats 5 } (some [sampleTask])
        (.error "boot failed") sampleConfig (fun _ => sampleEnv)).1.stats.total = 1 :=
  (c1_sync_not_guarded { isRunning := true, stats := resetStats 5 } [sampleTask]
    (.error "boot failed") sampleConfig (fun _ => sampleEnv) rfl (by simp)).2

/-- Claim C1 counterexample: with the engine already running
(`isRunning = true`) and stored stats of total 7, a `sync` call with one
task is not rejected — the stored statistics are reset (total becomes 1),
contradicting "rejected immediately … without resetting the statistics". -/
theorem c1_counterexample :
    (sync { isRunning := true,
            stats := { total := 7, success := 3, failed := 2, skipped := 2,
                       failedTasks := [] } }
        (some [sampleTask]) (.error "boot failed") sampleConfig
        (fun _ => sampleEnv)).1.stats.total = 1 ∧ (7 : Nat) ≠ 1 :=
  ⟨rfl, by decide⟩

/-- Claim C10: a run that completes normally (no `stop`, no bootstrap
error) gives every input task exactly one of success, failed or skipped, so
at completion the three counters sum to the total, which equals the number
of input tasks. -/
theorem c10_stats_partition (st : EngineState) (ts : List SourceTask)
    (b : Bootstrap) (cfg : Config) (env : SourceTask → ApiEnv) (hne : ts ≠ []) :
    ((sync st (some ts) (.ok b) cfg env).1.stats.success +
      (sync st (some ts) (.ok b) cfg env).1.stats.failed +
      (sync st (some ts) (.ok b) cfg env).1.stats.skipped =
        (sync st (some ts) (.ok b) cfg env).1.stats.total) ∧
    (sync st (some ts) (.ok b) cfg env).1.stats.total = ts.length := by
  have hlen : ¬ts.length = 0 := fun h => hne (List.length_eq_zero.mp h)
  have hchunk : ((chunks (jsOrNat cfg.batchSize 20) ts).map List.length).sum = ts.length :=
    chunkAux_length_sum (jsOrNat cfg.batchSize 20) (jsOrNat_pos cfg.batchSize)
      ts.length ts (le_refl _)
  have hfold := foldBatches_counters cfg.pdt b.allMembers b.allTasks env
    (chunks (jsOrNat cfg.batchSize 20) ts) (resetStats ts.length)
  have hsum := hfold.2
  rw [hchunk] at hsum
  have htot := hfold.1
  simp only [sync]
  rw [if_neg hlen]
  constructor
  · show statSum (List.foldl (fun s batch =>
        processBatch cfg.pdt b.allMembers b.allTasks env batch s)
        (resetStats ts.length) (chunks (jsOrNat cfg.batchSize 20) ts)) =
      (List.foldl (fun s batch =>
        processBatch cfg.pdt b.allMembers b.allTasks env batch s)
        (resetStats ts.length) (chunks (jsOrNat cfg.batchSize 20) ts)).total
    rw [hsum, htot]
    simp [statSum, resetStats]
  · show (List.foldl (fun s batch =>
        processBatch cfg.pdt b.allMembers b.allTasks env batch s)
        (resetStats ts.length) (chunks (jsOrNat cfg.batchSize 20) ts)).total = ts.length
    exact htot

/-! ### Rate limiter lemmas -/

theorem acquire_mono (maxR window : Nat) (jit : Nat → Nat) :
    ∀ (fuel now : Nat) (reqs : List Nat) (t : Nat) (r : List Nat),
      acquire maxR window fuel now reqs jit = some (t, r) → now ≤ t := by
  intro fuel
  induction fuel with
  | zero =>
    intro now reqs t r h
    simp [acquire] at h
  | succ fuel ih =>
    intro now reqs t r h
    simp only [acquire] at h
    split at h
    · split at h
      · simp only [Option.some.injEq, Prod.mk.injEq] at h
        exact le_of_eq h.1
      · split at h
        · have h2 := ih _ _ _ _ h
          omega
        · simp only [Option.some.injEq, Prod.mk.injEq] at h
          exact le_of_eq h.1
    · simp only [Option.some.injEq, Prod.mk.injEq] at h
      exact le_of_eq h.1

theorem acquire_elems (maxR window : Nat) (jit : Nat → Nat) :
    ∀ (fuel now : Nat) (reqs : List Nat) (t : Nat) (r : List Nat),
      (∀ x ∈ reqs, x ≤ now) →
      acquire maxR window fuel now reqs jit = some (t, r) →
      ∀ x ∈ r, x ≤ t := by
  intro fuel
  induction fuel with
  | zero =>
    intro now reqs t r hb h
    simp [acquire] at h
  | succ fuel ih =>
    intro now reqs t r hb h
    have hfb : ∀ x ∈ reqs.filter (fun time => now - time < window), x ≤ now :=
      fun x hx => hb x (List.mem_of_mem_filter hx)
    simp only [acquire] at h
    split at h
    · split at h
      · simp only [Option.some.injEq, Prod.mk.injEq] at h
        obtain ⟨h1, h2⟩ := h
        intro x hx
        rw [← h2] at hx
        rcases List.mem_append.mp hx with hx1 | hx1
        · have := hfb x hx1; omega
        · simp at hx1; omega
      · split at h
        · exact ih _ _ _ _
            (fun y hy => by have := hfb y hy; omega) h
        · simp only [Option.some.injEq, Prod.mk.injEq] at h
          obtain ⟨h1, h2⟩ := h
          intro x hx
          rw [← h2] at hx
          rcases List.mem_append.mp hx with hx1 | hx1
          · have := hfb x hx1; omega
          · simp at hx1; omega
    · simp only [Option.some.injEq, Prod.mk.injEq] at h
      obtain ⟨h1, h2⟩ := h
      intro x hx
      rw [← h2] at hx
      rcases List.mem_append.mp hx with hx1 | hx1
      · have := hfb x hx1; omega
      · simp at hx1; omega

theorem acquire_bound (maxR window : Nat) (jit : Nat → Nat)
    (fuel now : Nat) (reqs : List Nat) (t : Nat) (r : List Nat)
    (oldest : Nat) (rest : List Nat)
    (hb : ∀ x ∈ reqs, x ≤ now)
    (hfil : reqs.filter (fun time => now - time < window) = oldest :: rest)
    (hlen : maxR ≤ (oldest :: rest).length)
    (h : acquire maxR window fuel now reqs jit = some (t, r)) :
    oldest + window ≤ t := by
  cases fuel with
  | zero => simp [acquire] at h
  | succ fuel =>
    have holdmem : oldest ∈ reqs.filter (fun time => now - time < window) := by
      rw [hfil]; exact List.mem_cons_self _ _
    have hold_le : oldest ≤ now := hb oldest (List.mem_of_mem_filter holdmem)
    have hold_lt : now - oldest < window := by
      have := List.of_mem_filter holdmem
      simpa using this
    simp only [acquire] at h
    split at h
    · split at h
      · rename_i heq'
        rw [hfil] at heq'
        simp at heq'
      · rename_i o2 tail heq'
        rw [hfil] at heq'
        injection heq' with ho htail
        subst ho
        split at h
        · have hmono := acquire_mono maxR window jit fuel _ _ _ _ h
          omega
        · rename_i hwle
          omega
    · rename_i hnle
      rw [hfil] at hnle
      exact absurd hlen hnle

theorem acquire_under (maxR window : Nat) (jit : Nat → Nat)
    (fuel now : Nat) (reqs : List Nat)
    (hlen : (reqs.filter (fun time => now - time < window)).length < maxR) :
    acquire maxR window (fuel + 1) now reqs jit =
      some (now, reqs.filter (fun time => now - time < window) ++ [now]) := by
  simp only [acquire]
  rw [if_neg (not_le.mpr hlen)]

theorem runAcquires_length (maxR window : Nat) (jit : Nat → Nat) :
    ∀ (gaps : List Nat) (done : Nat) (reqs : List Nat) (ts r : List Nat),
      runAcquires maxR window jit gaps done reqs = some (ts, r) →
      ts.length = gaps.length := by
  intro gaps
  induction gaps with
  | nil =>
    intro done reqs ts r h
    simp only [runAcquires, Option.some.injEq, Prod.mk.injEq] at h
    rw [← h.1]
  | cons gap gaps ih =>
    intro done reqs ts r h
    simp only [runAcquires] at h
    split at h
    · simp at h
    · rename_i tr heq
      split at h
      · simp at h
      · rename_i tsr heq2
        simp only [Option.some.injEq, Prod.mk.injEq] at h
        obtain ⟨h1, _⟩ := h
        rw [← h1]
        simp [ih _ _ _ _ heq2]

theorem runAcquires_last_bound (jit : Nat → Nat) :
    ∀ (gaps : List Nat) (done : Nat) (reqs : List Nat) (t1 : Nat) (ts r : List Nat),
      (∀ x ∈ reqs, x ≤ done) →
      (t1 + 1000 ≤ done ∨
        (reqs.head? = some t1 ∧ (∀ x ∈ reqs, t1 ≤ x) ∧
          reqs.length + gaps.length = 6)) →
      gaps ≠ [] →
      runAcquires 5 1000 jit gaps done reqs = some (ts, r) →
      ∀ t6, ts.getLast? = some t6 → t1 + 1000 ≤ t6 := by
  intro gaps
  induction gaps with
  | nil =>
    intro done reqs t1 ts r _ _ hne
    exact absurd rfl hne
  | cons gap gaps ih =>
    intro done reqs t1 ts r hb hinv _ h t6 hlast
    simp only [runAcquires] at h
    split at h
    · simp at h
    · rename_i tr heq
      obtain ⟨t, reqs2⟩ := tr
      split at h
      · simp at h
      · rename_i tsr heq2
        obtain ⟨ts2, reqsF⟩ := tsr
        simp only [Option.some.injEq, Prod.mk.injEq] at h
        obtain ⟨hts, _⟩ := h
        have hb2 : ∀ x ∈ reqs, x ≤ done + gap := fun x hx => by
          have := hb x hx; omega
        have hmono : done + gap ≤ t := acquire_mono 5 1000 jit _ _ _ _ _ heq
        cases gaps with
        | nil =>
          -- the call just made is the last (6th) one
          have hts2 : ts2 = [] := by
            have := runAcquires_length 5 1000 jit [] t reqs2 ts2 reqsF heq2
            exact List.length_eq_zero.mp this
          subst hts2
          rw [← hts] at hlast
          simp only [List.getLast?_singleton, Option.some.injEq] at hlast
          subst hlast
          rcases hinv with hA | ⟨hhead, hge, hlen6⟩
          · omega
          · by_cases hall : ∀ x ∈ reqs, done + gap - x < 1000
            · have hfil : reqs.filter (fun time => done + gap - time < 1000) = reqs :=
                List.filter_eq_self.mpr (fun a ha => by
                  simpa using hall a ha)
              cases reqs with
              | nil => simp at hhead
              | cons a as =>
                have ha1 : a = t1 := by simpa using hhead
                subst ha1
                have hlen5 : (a :: as).length = 5 := by
                  simp at hlen6
                  simpa using hlen6
                exact acquire_bound 5 1000 jit _ _ _ _ _ _ _ hb2 hfil
                  (by omega) heq
            · push_neg at hall
              obtain ⟨x, hxmem, hxold⟩ := hall
              have hx1 : t1 ≤ x := hge x hxmem
              have hx2 : x ≤ done := hb x hxmem
              omega
        | cons gap2 grest =>
          have hts2ne : ts2 ≠ [] := by
            have := runAcquires_length 5 1000 jit (gap2 :: grest) t reqs2 ts2 reqsF heq2
            intro hcontr
            rw [hcontr] at this
            simp at this
          have hlast2 : ts2.getLast? = some t6 := by
            rw [← hts] at hlast
            cases ts2 with
            | nil => exact absurd rfl hts2ne
            | cons b bs => simpa using hlast
          have hb3 : ∀ x ∈ reqs2, x ≤ t := acquire_elems 5 1000 jit _ _ _ _ _ hb2 heq
          rcases hinv with hA | ⟨hhead, hge, hlen6⟩
          · exact ih t reqs2 t1 ts2 reqsF hb3 (Or.inl (by omega))
              (by simp) heq2 t6 hlast2
          · by_cases hall : ∀ x ∈ reqs, done + gap - x < 1000
            · have hfil : reqs.filter (fun time => done + gap - time < 1000) = reqs :=
                List.filter_eq_self.mpr (fun a ha => by
                  simpa using hall a ha)
              have hlenlt : (reqs.filter (fun time => done + gap - time < 1000)).length < 5 := by
                rw [hfil]
                simp at hlen6
                omega
              have hunder := acquire_under 5 1000 jit reqs.length (done + gap) reqs hlenlt
              rw [hfil] at hunder
              rw [hunder] at heq
              simp only [Option.some.injEq, Prod.mk.injEq] at heq
              obtain ⟨ht, hr2⟩ := heq
              cases reqs with
              | nil => simp at hhead
              | cons a as =>
                have ha1 : a = t1 := by simpa using hhead
                subst ha1
                refine ih t reqs2 a ts2 reqsF hb3 (Or.inr ⟨?_, ?_, ?_⟩)
                  (by simp) heq2 t6 hlast2
                · rw [← hr2]
                  rfl
                · intro x hx
                  rw [← hr2] at hx
                  rcases List.mem_append.mp hx with hx1 | hx1
                  · exact hge x hx1
                  · simp at hx1
                    have : a ≤ done := hb a (List.mem_cons_self _ _)
                    omega
                · rw [← hr2]
                  simp at hlen6 ⊢
                  omega
            · push_neg at hall
              obtain ⟨x, hxmem, hxold⟩ := hall
              have hx1 : t1 ≤ x := hge x hxmem
              have hx2 : x ≤ done := hb x hxmem
              exact ih t reqs2 t1 ts2 reqsF hb3 (Or.inl (by omega))
                (by simp) heq2 t6 hlast2

/-- Claim C8: `acquire` drops the expired timestamps and appends its entry
time when under the limit; an over-limit entry waits (re-evaluating after
each wait) and cannot record earlier than `oldest + timeWindow`; and in any
sequence of six `acquire` calls against a fresh `maxRequests = 5`,
`timeWindow = 1000` limiter, the sixth completes no earlier than 1000 ms
after the first call's recorded timestamp, for every sleep jitter and every
spacing of the calls. -/
theorem c8_rate_limiter :
    (∀ (fuel now : Nat) (reqs : List Nat) (jit : Nat → Nat),
      (reqs.filter (fun time => now - time < 1000)).length < 5 →
      acquire 5 1000 (fuel + 1) now reqs jit =
        some (now, reqs.filter (fun time => now - time < 1000) ++ [now])) ∧
    (∀ (fuel now : Nat) (reqs : List Nat) (jit : Nat → Nat) (t : Nat) (r : List Nat)
        (oldest : Nat) (rest : List Nat),
      (∀ x ∈ reqs, x ≤ now) →
      reqs.filter (fun time => now - time < 1000) = oldest :: rest →
      5 ≤ (oldest :: rest).length →
      acquire 5 1000 fuel now reqs jit = some (t, r) →
      oldest + 1000 ≤ t) ∧
    (∀ (jit : Nat → Nat) (gaps : List Nat) (now0 : Nat) (ts r : List Nat),
      gaps.length = 6 →
      runAcquires 5 1000 jit gaps now0 [] = some (ts, r) →
      ∀ t1 t6, ts.head? = some t1 → ts.getLast? = some t6 → t1 + 1000 ≤ t6) := by
  refine ⟨?_, ?_, ?_⟩
  · intro fuel now reqs jit hlen
    exact acquire_under 5 1000 jit fuel now reqs hlen
  · intro fuel now reqs jit t r oldest rest hb hfil hlen h
    exact acquire_bound 5 1000 jit fuel now reqs t r oldest rest hb hfil hlen h
  · intro jit gaps now0 ts r hlen h t1 t6 hhead hlast
    cases gaps with
    | nil => simp at hlen
    | cons g1 grest =>
      simp only [runAcquires, List.length_nil] at h
      have hfirst := acquire_under 5 1000 jit 0 (now0 + g1) [] (by simp)
      simp only [List.filter_nil, List.nil_append] at hfirst
      split at h
      · rename_i heqnone
        rw [hfirst] at heqnone
        simp at heqnone
      · rename_i tr heqtr
        rw [hfirst] at heqtr
        simp only [Option.some.injEq] at heqtr
        subst heqtr
        split at h
        · simp at h
        · rename_i tsr heq2
          obtain ⟨ts2, reqsF⟩ := tsr
          simp only [Option.some.injEq, Prod.mk.injEq] at h
          obtain ⟨hts, _⟩ := h
          have ht1 : t1 = now0 + g1 := by
            rw [← hts] at hhead
            exact (by simpa using hhead : now0 + g1 = t1).symm
          subst ht1
          have hts2ne : ts2 ≠ [] := by
            have hl2 := runAcquires_length 5 1000 jit grest (now0 + g1) [now0 + g1]
              ts2 reqsF heq2
            intro hcontr
            rw [hcontr] at hl2
            simp at hl2
            simp [← hl2] at hlen
          have hlast2 : ts2.getLast? = some t6 := by
            rw [← hts] at hlast
            cases ts2 with
            | nil => exact absurd rfl hts2ne
            | cons b bs => simpa using hlast
          have hgrest : grest ≠ [] := by
            intro hcontr
            rw [hcontr] at hlen
            simp at hlen
          refine runAcquires_last_bound jit grest (now0 + g1) [now0 + g1] (now0 + g1)
            ts2 reqsF ?_ (Or.inr ⟨rfl, ?_, ?_⟩) hgrest heq2 t6 hlast2
          · intro x hx
            simp at hx
            omega
          · intro x hx
            simp at hx
            omega
          · simp at hlen ⊢
            omega

/-- Witness for C8: six back-to-back acquires with no jitter starting from 0
record timestamps 0,0,0,0,0,1000 — the sixth completes exactly 1000 ms after
the first. -/
theorem c8_rate_limiter_witness :
    runAcquires 5 1000 (fun _ => 0) [0, 0, 0, 0, 0, 0] 0 [] =
      some ([0, 0, 0, 0, 0, 1000], [1000]) ∧ (0 + 1000 : Nat) ≤ 1000 := by
  refine ⟨by decide, ?_⟩
  exact c8_rate_limiter.2.2 (fun _ => 0) [0, 0, 0, 0, 0, 0] 0
    [0, 0, 0, 0, 0, 1000] [1000] rfl (by decide) 0 1000 rfl rfl

/-- Witness for C10: a concrete two-task run (one task unmatched and
skipped, one matched with a failing executor update) partitions exactly. -/
theorem c10_stats_partition_witness :
    ((sync { isRunning := false, stats := resetStats 0 }
        (some [sampleTask, sampleTask7])
        (.ok { organizationId := "o", tasklistId := "tl",
               allMembers := sampleMembers, allTasks := sampleIndex })
        sampleConfig (fun _ => sampleEnvFail)).1.stats.success +
      (sync { isRunning := false, stats := resetStats 0 }
        (some [sampleTask, sampleTask7])
        (.ok { organizationId := "o", tasklistId := "tl",
               allMembers := sampleMembers, allTasks := sampleIndex })
        sampleConfig (fun _ => sampleEnvFail)).1.stats.failed +
      (sync { isRunning := false, stats := resetStats 0 }
        (some [sampleTask, sampleTask7])
        (.ok { organizationId := "o", tasklistId := "tl",
               allMembers := sampleMembers, allTasks := sampleIndex })
        sampleConfig (fun _ => sampleEnvFail)).1.stats.skipped =
        (sync { isRunning := false, stats := resetStats 0 }
          (some [sampleTask, sampleTask7])
          (.ok { organizationId := "o", tasklistId := "tl",
                 allMembers := sampleMembers, allTasks := sampleIndex })
          sampleConfig (fun _ => sampleEnvFail)).1.stats.total) ∧
    (sync { isRunning := false, stats := resetStats 0 }
      (some [sampleTask, sampleTask7])
      (.ok { organizationId := "o", tasklistId := "tl",
             allMembers := sampleMembers, allTasks := sampleIndex })
      sampleConfig (fun _ => sampleEnvFail)).1.stats.total = 2 :=
  c10_stats_partition { isRunning := false, stats := resetStats 0 }
    [sampleTask, sampleTask7]
    { organizationId := "o", tasklistId := "tl",
      allMembers := sampleMembers, allTasks := sampleIndex }
    sampleConfig (fun _ => sampleEnvFail) (by simp)

end Wbs2tb
